import Mathlib

/-!
Verification of the training/inference numerical engine of
`open/demo/learn/main.py` (character-sequence OCR demo): vocabulary
construction, label encoding/decoding, the per-position MLP forward and
backward pass, the training loop with best-checkpoint tracking, the
npz model serializer and the predictor.

Modelling conventions:

* 32-bit floats are modelled by exact rationals (`ℚ`).  The claims under
  study are about the algebraic structure of the computations, not about
  rounding, and the source keeps every tensor in float32 throughout, so
  `astype(np.float32)` is the identity in the model.
* `np.exp` and `np.log` are transcendental and have no exact rational
  counterpart; every definition that needs them takes them as explicit
  function parameters (`rexp`, `rlog`).  All theorems hold for an
  arbitrary choice of these parameters, in particular for the real
  `exp`/`log`.
* Matrices are total functions `Fin m → Fin n → ℚ`, so shape agreement is
  enforced by types exactly where numpy would raise a broadcast error.
* The JSON config document bundled in the npz archive is modelled as an
  association list of string keys and typed values (`Config`): Python
  dict/JSON round-trips preserve exactly the key-value mapping, which is
  what the association-list model preserves.
-/

/-- Matrix with `m` rows and `n` columns of rationals, row index first,
matching `np.ndarray` indexing `a[i, j]`. -/
abbrev Matq (m n : ℕ) : Type := Fin m → Fin n → ℚ

/-- Vector of `n` rationals. -/
abbrev Vecq (n : ℕ) : Type := Fin n → ℚ

/-- The reserved padding symbol `PAD_TOKEN = "<pad>"` of `main.py`. -/
def PAD_TOKEN : String := "<pad>"

/-- The artifact schema identifier `MODEL_SCHEMA` of `main.py`. -/
def MODEL_SCHEMA : String := "demo.car_plate_ocr.model.v2"

/-- Values a config entry can hold: the config dict of `main.py` stores
integers, floats, strings and the vocabulary (a list of strings). -/
inductive CfgVal : Type where
  | vInt : ℤ → CfgVal
  | vRat : ℚ → CfgVal
  | vStr : String → CfgVal
  | vStrList : List String → CfgVal
deriving DecidableEq

/-- The model config: a Python dict with string keys, modelled as an
association list (first binding of a key wins on lookup). -/
abbrev Config : Type := List (String × CfgVal)

/-- Lookup in a config dict: `cfg.get(key)` of Python. -/
def getKey : Config → String → Option CfgVal
  | [], _ => none
  | (k, v) :: rest, key => if k = key then some v else getKey rest key

/-- Dict assignment `cfg[key] = v` of Python: replace the binding if the
key is present, append it otherwise. -/
def setKey : Config → String → CfgVal → Config
  | [], key, v => [(key, v)]
  | (k, w) :: rest, key, v =>
      if k = key then (k, v) :: rest else (k, w) :: setKey rest key v

/-- Config key for the stored vocabulary. -/
def kVocab : String := "vocab"

/-- Config key for the stored pad token. -/
def kPadToken : String := "pad_token"

/-- Config key for the stored pixel mean. -/
def kPixelMean : String := "pixel_mean"

/-- Config key for the stored pixel standard deviation. -/
def kPixelStd : String := "pixel_std"

/-- Config key for the image width. -/
def kImageWidth : String := "image_width"

/-- Config key for the image height. -/
def kImageHeight : String := "image_height"

/-- Config key for the hidden layer size. -/
def kHiddenSize : String := "hidden_size"

/-- Config key for the maximum label length. -/
def kMaxLabelLen : String := "max_label_len"

/-- Config key for the schema identifier. -/
def kSchema : String := "schema"

/-- Config key for the training seed. -/
def kSeed : String := "seed"

/-! ## Label codec (`_build_vocab`, `_encode_labels` of main.py) -/

/-- `_build_vocab(labels)`: collect the distinct characters of all labels,
sort them ascending, and append `PAD_TOKEN` if it is not already present
(`sorted({ch for label in labels for ch in label})`).  Characters become
one-character strings, as in Python where indexing a `str` yields a `str`.
`List.insertionSort` plays the role of Python's `sorted` on the
deduplicated character set. -/
def _build_vocab (labels : List String) : List String :=
  let chars :=
    (((labels.flatMap String.toList).dedup.insertionSort (· ≤ ·)).map String.singleton)
  if PAD_TOKEN ∈ chars then chars else chars ++ [PAD_TOKEN]

/-- Index of the last occurrence of `t` in `vocab`: the Python dict
comprehension `{t: i for i, t in enumerate(vocab)}` lets a later binding
of the same token overwrite an earlier one. -/
def lastIdxOf : List String → String → Option ℕ
  | [], _ => none
  | v :: vs, t =>
      match lastIdxOf vs t with
      | some i => some (i + 1)
      | none => if v = t then some 0 else none

/-- One row of `_encode_labels`: truncate the label to `max_len`
characters, map each character to its vocabulary index (unknown characters
fall back to the padding index, `tok_to_idx.get(ch, pad_idx)`), and
right-pad with the padding index.  `none` models the `KeyError` Python
raises when `PAD_TOKEN` is absent from the vocabulary
(`pad_idx = tok_to_idx[PAD_TOKEN]`). -/
def _encode_label (vocab : List String) (max_len : ℕ) (label : String) :
    Option (List ℕ) :=
  (lastIdxOf vocab PAD_TOKEN).map fun padIdx =>
    ((label.toList.take max_len).map fun ch =>
        (lastIdxOf vocab (String.singleton ch)).getD padIdx)
      ++ List.replicate (max_len - min max_len label.toList.length) padIdx

/-- `_encode_labels(labels, vocab=..., max_len=...)`: one encoded row per
label. -/
def _encode_labels (labels : List String) (vocab : List String) (max_len : ℕ) :
    Option (List (List ℕ)) :=
  labels.mapM (_encode_label vocab max_len)

/-- The trailing-padding strip of `_predict_text`
(`while tokens and tokens[-1] == pad_token: tokens.pop()`), acting on the
reversed token list: drop leading occurrences of `pad`. -/
def stripRev (pad : String) : List String → List String
  | [] => []
  | t :: ts => if t = pad then stripRev pad ts else t :: ts

/-- Strip the trailing run of `pad` from a token list. -/
def stripTrailingPad (pad : String) (toks : List String) : List String :=
  (stripRev pad toks.reverse).reverse

/-- Decoding of an index sequence, as the tail of `_predict_text` does it:
map each index back to its vocabulary entry, strip the trailing run of the
padding token only, and join the remaining tokens into a string. -/
def decodeIndices (vocab : List String) (pad : String) (idxs : List ℕ) : String :=
  String.join (stripTrailingPad pad (idxs.map fun i => vocab.getD i ""))

/-! ## Model data and serializer (`_save_model_npz`, `_load_model_npz`) -/

/-- The four parameter tensors of the model: shared hidden projection
`w1 : [hidden × features]`, `b1 : [hidden]`, and per-position heads
`w2 : [positions × vocab × hidden]`, `b2 : [positions × vocab]`. -/
structure Params (f hid seq v : ℕ) : Type where
  w1 : Matq hid f
  b1 : Vecq hid
  w2 : Fin seq → Matq v hid
  b2 : Fin seq → Vecq v

/-- The `TrainedModel` dataclass of main.py. -/
structure TrainedModel (f hid seq v : ℕ) : Type where
  config : Config
  w1 : Matq hid f
  b1 : Vecq hid
  w2 : Fin seq → Matq v hid
  b2 : Fin seq → Vecq v

/-- The saved npz archive: the JSON config document plus the four named
float32 tensors, modelled structurally. -/
structure NpzModelFile (f hid seq v : ℕ) : Type where
  config : Config
  w1 : Matq hid f
  b1 : Vecq hid
  w2 : Fin seq → Matq v hid
  b2 : Fin seq → Vecq v

/-- `_save_model_npz(path, model, mean=..., std=...)`: copy the model's
config, merge `pixel_mean` then `pixel_std` into it, and bundle it with
the four tensors (`astype(np.float32)` is the identity here, the model's
tensors being float32 already). -/
def _save_model_npz (m : TrainedModel f hid seq v) (mean std : ℚ) :
    NpzModelFile f hid seq v :=
  let cfg := setKey (setKey m.config kPixelMean (CfgVal.vRat mean)) kPixelStd
    (CfgVal.vRat std)
  ⟨cfg, m.w1, m.b1, m.w2, m.b2⟩

/-- Python `float(v)` on a config value.  Artifacts written by
`_save_model_npz` always store numbers in the pixel fields; `float` of a
non-numeric value (a list) raises, which `none` models.  (Python would
also parse a numeric string; no artifact of this program stores one, so
the string parse is not modelled.) -/
def cfgNum : CfgVal → Option ℚ
  | CfgVal.vInt n => some (n : ℚ)
  | CfgVal.vRat x => some x
  | _ => none

/-- `_load_model_npz(path)`: parse the config, read
`cfg.get("pixel_mean", 0.0)` and `cfg.get("pixel_std", 1.0)` with their
backward-compatibility defaults, and rebuild the model from the four
tensors. -/
def _load_model_npz (d : NpzModelFile f hid seq v) :
    Option (TrainedModel f hid seq v × ℚ × ℚ) :=
  let meanv := match getKey d.config kPixelMean with
    | none => some (0 : ℚ)
    | some x => cfgNum x
  let stdv := match getKey d.config kPixelStd with
    | none => some (1 : ℚ)
    | some x => cfgNum x
  match meanv, stdv with
  | some mean, some std =>
      some (⟨d.config, d.w1, d.b1, d.w2, d.b2⟩, mean, std)
  | _, _ => none

/-! ## Forward pass and evaluation (`_relu`, `_softmax`, `_eval_model`) -/

/-- `np.max` along a row, with value `0` on an empty row (numpy raises
there; every use below is on rows of positive length). -/
def listMaxD : List ℚ → ℚ
  | [] => 0
  | x :: xs => xs.foldl max x

/-- `np.argmax` on a list: index of the first occurrence of the maximum
(`0` on the empty list, where numpy raises). -/
def argmaxIdx (l : List ℚ) : ℕ :=
  (l.foldl
    (fun (acc : ℕ × ℚ × ℕ) v =>
      if acc.2.1 < v then (acc.2.2, v, acc.2.2 + 1) else (acc.1, acc.2.1, acc.2.2 + 1))
    (0, l.headD 0, 0)).1

/-- Python `min` over a list (`0` on the empty list, where Python raises;
the one caller guards the empty case). -/
def listMin : List ℚ → ℚ
  | [] => 0
  | x :: xs => xs.foldl min x

/-- `_relu(x) = np.maximum(x, 0.0)` on one entry. -/
def _relu (x : ℚ) : ℚ := max x 0

/-- `_softmax(logits)` row-wise, with the exponential passed in as
`rexp`: subtract the row maximum, exponentiate, normalize by the row
sum. -/
def _softmax (rexp : ℚ → ℚ) (logits : Matq n v) : Matq n v :=
  fun i j =>
    let m := listMaxD (List.ofFn fun k => logits i k)
    rexp (logits i j - m) / (∑ k, rexp (logits i k - m))

/-- The epsilon `1e-9` added before taking logarithms in the loss. -/
def lossEps : ℚ := 1 / 1000000000

/-- `_eval_model(x, y, w1=..., b1=..., w2=..., b2=...)`: mean
cross-entropy loss (with `rlog` for `np.log`), full-sequence accuracy and
character accuracy; `(0.0, 0.0, 0.0)` when either tensor is empty
(`x.size == 0 or y.size == 0`). -/
def _eval_model (rexp rlog : ℚ → ℚ) (x : Matq n f) (y : Fin n → Fin seq → Fin v)
    (w1 : Matq hid f) (b1 : Vecq hid) (w2 : Fin seq → Matq v hid)
    (b2 : Fin seq → Vecq v) : ℚ × ℚ × ℚ :=
  if n * f = 0 ∨ n * seq = 0 then (0, 0, 0)
  else
    let z1 : Matq n hid := fun i j => (∑ k, x i k * w1 j k) + b1 j
    let h : Matq n hid := fun i j => _relu (z1 i j)
    let probsAt : Fin seq → Matq n v := fun pos =>
      _softmax rexp (fun i j => (∑ k, h i k * w2 pos j k) + b2 pos j)
    let lossTotal : ℚ :=
      ∑ pos : Fin seq, -((∑ i : Fin n, rlog (probsAt pos i (y i pos) + lossEps)) / n)
    let predAt : Fin n → Fin seq → ℕ := fun i pos =>
      argmaxIdx (List.ofFn fun j => probsAt pos i j)
    let charCorrect : ℕ :=
      ∑ pos : Fin seq, (Finset.univ.filter fun i : Fin n =>
        predAt i pos = (y i pos : ℕ)).card
    let fullCorrect : ℕ :=
      (Finset.univ.filter fun i : Fin n => ∀ pos, predAt i pos = (y i pos : ℕ)).card
    (lossTotal / seq, (fullCorrect : ℚ) / n, (charCorrect : ℚ) / (n * seq))

/-! ## One training step (inner minibatch loop of `_train_mlp`) -/

/-- Accumulator of the per-position gradient loop: `dW2`, `db2` are
assigned position by position, `dh` is accumulated
(`dh += dlogits @ w2[pos]`). -/
structure StepAcc (b hid seq v : ℕ) : Type where
  dW2 : Fin seq → Matq v hid
  db2 : Fin seq → Vecq v
  dh : Matq b hid

/-- The position loop of the training step: for each position in `l`,
assign `dW2[pos] := F pos` and `db2[pos] := G1 pos` and accumulate
`dh := dh + G2 pos`. -/
def accumGrads (F : Fin seq → Matq v hid) (G1 : Fin seq → Vecq v)
    (G2 : Fin seq → Matq b hid) (l : List (Fin seq)) (a : StepAcc b hid seq v) :
    StepAcc b hid seq v :=
  l.foldl
    (fun acc pos =>
      ⟨Function.update acc.dW2 pos (F pos), Function.update acc.db2 pos (G1 pos),
        fun i k => acc.dh i k + G2 pos i k⟩)
    a

/-- One training step of `_train_mlp` on a minibatch `(xb, yb)` of `b`
rows: forward to `h`, loop over the positions computing
`dlogits = (softmax(logits) - one_hot(target)) / b`, `dW2[pos] = dlogitsᵀ @ h`,
`db2[pos] = dlogits.sum(axis=0)`, `dh += dlogits @ w2[pos]`; then zero
`dh` where `z1 ≤ 0`, form `dW1 = dhᵀ @ xb`, `db1 = dh.sum(axis=0)`, and
descend: `param -= lr * grad`. -/
def _train_step (rexp : ℚ → ℚ) (lr : ℚ) (p : Params f hid seq v)
    (xb : Matq b f) (yb : Fin b → Fin seq → Fin v) : Params f hid seq v :=
  let z1 : Matq b hid := fun i j => (∑ k, xb i k * p.w1 j k) + p.b1 j
  let h : Matq b hid := fun i j => _relu (z1 i j)
  let dlogits : Fin seq → Matq b v := fun pos =>
    let probs := _softmax rexp (fun i j => (∑ k, h i k * p.w2 pos j k) + p.b2 pos j)
    fun i j => (probs i j - if yb i pos = j then 1 else 0) / (b : ℚ)
  let acc := accumGrads
    (fun pos jj k => ∑ i, dlogits pos i jj * h i k)
    (fun pos jj => ∑ i, dlogits pos i jj)
    (fun pos i k => ∑ j, dlogits pos i j * p.w2 pos j k)
    (List.finRange seq)
    ⟨fun _ _ _ => 0, fun _ _ => 0, fun _ _ => 0⟩
  let dhMasked : Matq b hid := fun i k => if z1 i k ≤ 0 then 0 else acc.dh i k
  let dW1 : Matq hid f := fun j k => ∑ i, dhMasked i j * xb i k
  let db1 : Vecq hid := fun j => ∑ i, dhMasked i j
  ⟨fun j k => p.w1 j k - lr * dW1 j k,
    fun j => p.b1 j - lr * db1 j,
    fun pos jj k => p.w2 pos jj k - lr * acc.dW2 pos jj k,
    fun pos jj => p.b2 pos jj - lr * acc.db2 pos jj⟩

/-- The training step exactly as §4.3 of the spec words it: per-position
softmax-cross-entropy gradient `probs − one_hot(target)` scaled by
`1/batch_size`; head gradients `dW2[p] = dlogits_pᵗ @ h` and
`db2[p] = sum(dlogits_p)`; shared-hidden gradient the **sum over
positions** of `dlogits_p @ W2[p]`, masked by the ReLU derivative (zero
where the pre-activation is `≤ 0`) before forming `dW1`, `db1`; update
`param -= learning_rate * grad`, nothing else. -/
def trainStepSpec (rexp : ℚ → ℚ) (lr : ℚ) (p : Params f hid seq v)
    (xb : Matq b f) (yb : Fin b → Fin seq → Fin v) : Params f hid seq v :=
  let z1 : Matq b hid := fun i j => (∑ k, xb i k * p.w1 j k) + p.b1 j
  let h : Matq b hid := fun i j => _relu (z1 i j)
  let dlogits : Fin seq → Matq b v := fun pos =>
    let probs := _softmax rexp (fun i j => (∑ k, h i k * p.w2 pos j k) + p.b2 pos j)
    fun i j => (probs i j - if yb i pos = j then 1 else 0) / (b : ℚ)
  let dW2 : Fin seq → Matq v hid := fun pos jj k => ∑ i, dlogits pos i jj * h i k
  let db2 : Fin seq → Vecq v := fun pos jj => ∑ i, dlogits pos i jj
  let dh : Matq b hid := fun i k => ∑ pos, ∑ j, dlogits pos i j * p.w2 pos j k
  let dhMasked : Matq b hid := fun i k => if z1 i k ≤ 0 then 0 else dh i k
  let dW1 : Matq hid f := fun j k => ∑ i, dhMasked i j * xb i k
  let db1 : Vecq hid := fun j => ∑ i, dhMasked i j
  ⟨fun j k => p.w1 j k - lr * dW1 j k,
    fun j => p.b1 j - lr * db1 j,
    fun pos jj k => p.w2 pos jj k - lr * dW2 pos jj k,
    fun pos jj => p.b2 pos jj - lr * db2 pos jj⟩

/-! ## Trainer (`_train_mlp` of main.py) -/

/-- The clamped hyperparameters of `TrainConfig` that the trainer reads
(`hidden_size` appears as the type index `hid` of the tensors). -/
structure TrainConfig : Type where
  epochs : ℕ
  batch_size : ℕ
  learning_rate : ℚ
  min_epoch_seconds : ℚ
  image_width : ℤ
  image_height : ℤ
  seed : ℤ

/-- The draws the trainer takes from `np.random.default_rng(cfg.seed)`,
the single seeded generator: `w1Init` models
`(rng.standard_normal((hidden, feat)) * 1/sqrt(max(1, feat))).astype(np.float32)`,
`w2Init` models the analogous head draw scaled by `1/sqrt(max(1, hidden))`,
and `permAt e` the permutation `rng.permutation(n_train)` drawn at the
start of epoch `e`.  A seeded generator is a pure stream, so a run's draws
are a function of the seed alone; theorems quantify over this structure. -/
structure RngDraws (n f hid seq v : ℕ) : Type where
  w1Init : Matq hid f
  w2Init : Fin seq → Matq v hid
  permAt : ℕ → Fin n → Fin n

/-- `batches_per_epoch = int(math.ceil(n_train / float(cfg.batch_size)))`
for a positive batch size (the parser clamps it to `[4, 512]`). -/
def numBatches (nt bs : ℕ) : ℕ := (nt + bs - 1) / bs

/-- Row `start + i` of the shuffled index slice
`perm[start : start + batch_size]`, whose length is
`min batch_size (n - start)`. -/
def sliceIdx (nt bs start : ℕ) (i : Fin (min bs (nt - start))) : Fin nt :=
  ⟨start + i.1, by have h := i.2; omega⟩

/-- The minibatch loop of one epoch: slice the shuffled indices into
consecutive batches (the last may be shorter) and run one training step
per batch. -/
def runBatches (rexp : ℚ → ℚ) (lr : ℚ) (bs : ℕ) (x : Matq n f)
    (y : Fin n → Fin seq → Fin v) (perm : Fin n → Fin n)
    (p0 : Params f hid seq v) : Params f hid seq v :=
  (List.range (numBatches n bs)).foldl
    (fun p batchIdx =>
      let start := batchIdx * bs
      _train_step rexp lr p
        (fun i j => x (perm (sliceIdx n bs start i)) j)
        (fun i pos => y (perm (sliceIdx n bs start i)) pos))
    p0

/-- The strict-improvement test `val_loss < best_val_loss`, where
`none` models the initial `best_val_loss = float("inf")`. -/
def improved (l : ℚ) : Option ℚ → Bool
  | none => true
  | some b => decide (l < b)

/-- The loop state of `_train_mlp`: live parameters, best validation loss
so far (`none` = infinity) and the best snapshot (`none` = never
recorded). -/
structure EpochState (f hid seq v : ℕ) : Type where
  p : Params f hid seq v
  bestLoss : Option ℚ
  bestSnap : Option (Params f hid seq v)

/-- One epoch of `_train_mlp`: run the minibatch steps over the shuffled
indices, evaluate the validation loss, and snapshot all four tensors as
the new best exactly when the validation loss strictly improves. -/
def _epoch (rexp rlog : ℚ → ℚ) (lr : ℚ) (bs : ℕ) (xtr : Matq n f)
    (ytr : Fin n → Fin seq → Fin v) (xval : Matq nv f)
    (yval : Fin nv → Fin seq → Fin v) (perm : Fin n → Fin n)
    (st : EpochState f hid seq v) : EpochState f hid seq v :=
  let p2 := runBatches rexp lr bs xtr ytr perm st.p
  let valLoss := (_eval_model rexp rlog xval yval p2.w1 p2.b1 p2.w2 p2.b2).1
  if improved valLoss st.bestLoss then ⟨p2, some valLoss, some p2⟩
  else ⟨p2, st.bestLoss, st.bestSnap⟩

/-- The epoch loop of `_train_mlp`, run for a given number of epochs,
threading the loop state and the list of pacing sleeps.  `durations e` is
the wall-clock duration of epoch `e` (an input of the environment); when
`cfg.min_epoch_seconds > 0` and the epoch finished early the trainer
sleeps for the remainder, which the sleep log records. -/
def epochsLoop (rexp rlog : ℚ → ℚ) (lr : ℚ) (bs : ℕ) (minSecs : ℚ)
    (draws : RngDraws n f hid seq v) (durations : ℕ → ℚ) (xtr : Matq n f)
    (ytr : Fin n → Fin seq → Fin v) (xval : Matq nv f)
    (yval : Fin nv → Fin seq → Fin v) :
    ℕ → EpochState f hid seq v × List ℚ
  | 0 => (⟨⟨draws.w1Init, fun _ => 0, draws.w2Init, fun _ _ => 0⟩, none, none⟩, [])
  | e + 1 =>
    let prev := epochsLoop rexp rlog lr bs minSecs draws durations xtr ytr xval yval e
    let st := _epoch rexp rlog lr bs xtr ytr xval yval (draws.permAt e) prev.1
    let remaining := minSecs - durations e
    (st, prev.2 ++ if 0 < minSecs ∧ 0 < remaining then [remaining] else [])

/-- `_train_mlp(x_train, y_train, x_val, y_val, cfg=..., vocab=...)`:
`none` models the `empty_train_set` error raised when
`x_train.size == 0`; otherwise initialize from the seeded draws, run the
epoch loop, take the best snapshot if one was recorded (the live
parameters otherwise), report `best_val_loss` (`0.0` when it stayed
infinite), and pack the model with its config dict.  The returned pair
also carries the sleep log, so that the pacing side effect is part of the
model. -/
def _train_mlp (rexp rlog : ℚ → ℚ) (cfg : TrainConfig) (vocab : List String)
    (draws : RngDraws n f hid seq v) (durations : ℕ → ℚ)
    (x_train : Matq n f) (y_train : Fin n → Fin seq → Fin v)
    (x_val : Matq nv f) (y_val : Fin nv → Fin seq → Fin v) :
    Option ((TrainedModel f hid seq v × ℚ) × List ℚ) :=
  if n * f = 0 then none
  else
    let r := epochsLoop rexp rlog cfg.learning_rate cfg.batch_size
      cfg.min_epoch_seconds draws durations x_train y_train x_val y_val cfg.epochs
    let finalP := match r.1.bestSnap with
      | some s => s
      | none => r.1.p
    let bestMetric : ℚ := match r.1.bestLoss with
      | none => 0
      | some b => b
    let model_cfg : Config :=
      [(kSchema, CfgVal.vStr MODEL_SCHEMA),
        (kImageWidth, CfgVal.vInt cfg.image_width),
        (kImageHeight, CfgVal.vInt cfg.image_height),
        (kHiddenSize, CfgVal.vInt (hid : ℤ)),
        (kMaxLabelLen, CfgVal.vInt (seq : ℤ)),
        (kPadToken, CfgVal.vStr PAD_TOKEN),
        (kVocab, CfgVal.vStrList vocab),
        (kSeed, CfgVal.vInt cfg.seed)]
    some ((⟨model_cfg, finalP.w1, finalP.b1, finalP.w2, finalP.b2⟩, bestMetric), r.2)

/-! ## Predictor (`_predict_text` of main.py) -/

/-- `str(cfg.get("pad_token") or PAD_TOKEN)`: a missing or falsy value
(empty string, zero, empty list) falls back to `PAD_TOKEN`; a truthy
non-string value would be rendered by Python's `str`, approximated here by
`toString` (artifacts written by this program always store a string). -/
def padFromCfg (cfg : Config) : String :=
  match getKey cfg kPadToken with
  | some (CfgVal.vStr s) => if s = "" then PAD_TOKEN else s
  | some (CfgVal.vInt z) => if z = 0 then PAD_TOKEN else toString z
  | some (CfgVal.vRat x) => if x = 0 then PAD_TOKEN else toString x
  | some (CfgVal.vStrList l) => if l = [] then PAD_TOKEN else toString l
  | none => PAD_TOKEN

/-- The while-loop of `_predict_text` popping in lockstep from `tokens`
and `confs` while the last token equals the pad token, acting on the
reversed lists. -/
def popPadsRev (pad : String) : List String → List ℚ → List String × List ℚ
  | t :: ts, c :: cs =>
      if t = pad then popPadsRev pad ts cs else (t :: ts, c :: cs)
  | ts, cs => (ts, cs)

/-- Strip the trailing run of `pad` from the token list, dropping the
matching confidence entries (the lists always have equal length at the
call site). -/
def popPads (pad : String) (toks : List String) (confs : List ℚ) :
    List String × List ℚ :=
  let r := popPadsRev pad toks.reverse confs.reverse
  (r.1.reverse, r.2.reverse)

/-- Row 0 of the per-position probabilities of `_predict_text`, as a list:
normalize the features with the stored mean and the std floored at `1e-6`
(`max(1e-6, float(std))`), run the forward pass, and apply the softmax at
position `pos`. -/
def predProbsRow (rexp : ℚ → ℚ) (m : TrainedModel f hid seq v)
    (x : Matq (nr + 1) f) (mean std : ℚ) (pos : Fin seq) : List ℚ :=
  let xn : Matq (nr + 1) f := fun i j => (x i j - mean) / max (1 / 1000000) std
  let z1 : Matq (nr + 1) hid := fun i j => (∑ k, xn i k * m.w1 j k) + m.b1 j
  let h : Matq (nr + 1) hid := fun i j => _relu (z1 i j)
  List.ofFn fun j =>
    _softmax rexp (fun i jj => (∑ k, h i k * m.w2 pos jj k) + m.b2 pos jj) 0 j

/-- The argmax index of position `pos`, clamped into the tensor's
vocabulary range: `max(0, min(vocab_size - 1, int(probs.argmax(axis=1)[0])))`
(the lower clamp is trivial over `ℕ`; `vocab_size` is `w2.shape[1]`). -/
def predIdx (rexp : ℚ → ℚ) (m : TrainedModel f hid seq v) (x : Matq (nr + 1) f)
    (mean std : ℚ) (pos : Fin seq) : ℕ :=
  min (argmaxIdx (predProbsRow rexp m x mean std pos)) (v - 1)

/-- The token appended for each position: `str(vocab[idx])`.  The lookup
is written with the total `getD`, and `_predict_text` returns the
`vocabIndex` error whenever any position's clamped index reaches past the
stored vocabulary (the clamp bounds the index by `w2.shape[1]`, not by
`len(vocab)`, so Python raises `IndexError` there); the default `""` is
never reached on the success path. -/
def predTokens (rexp : ℚ → ℚ) (m : TrainedModel f hid seq v)
    (x : Matq (nr + 1) f) (mean std : ℚ) (vocab : List String) : List String :=
  List.ofFn fun pos : Fin seq => vocab.getD (predIdx rexp m x mean std pos) ""

/-- The confidence appended for each position: `float(probs[0, idx])`. -/
def predConfs (rexp : ℚ → ℚ) (m : TrainedModel f hid seq v)
    (x : Matq (nr + 1) f) (mean std : ℚ) : List ℚ :=
  List.ofFn fun pos : Fin seq =>
    (predProbsRow rexp m x mean std pos).getD (predIdx rexp m x mean std pos) 0

/-- The ways `_predict_text` raises instead of returning:
`invalidVocab` is the explicit `RuntimeError("model_invalid_vocab")`;
`vocabIndex` is the `IndexError` of `vocab[idx]` when the stored
vocabulary list is shorter than the head tensor's vocabulary dimension
and a clamped argmax index reaches past it (main.py lines 445-446);
`emptyClassAxis` is numpy's `ValueError` from the reductions
(`logits.max`, `argmax`) over an empty class axis when `w2.shape[1] = 0`
and at least one position is processed. -/
inductive PredictErr : Type where
  | invalidVocab : PredictErr
  | vocabIndex : PredictErr
  | emptyClassAxis : PredictErr
deriving DecidableEq

/-- `_predict_text(model, x, mean=..., std=...)`: raise
`model_invalid_vocab` when the stored vocabulary is not a nonempty list;
raise numpy's reduction error when a position is processed with an empty
class axis; raise `IndexError` when a clamped argmax index reaches past
the stored vocabulary; otherwise build the per-position tokens and
confidences from row 0 of the probabilities, strip the trailing run of
the pad token from both lists in lockstep, and return the joined text
with `float(min(confs)) if confs else 0.0`. -/
def _predict_text (rexp : ℚ → ℚ) (m : TrainedModel f hid seq v)
    (x : Matq (nr + 1) f) (mean std : ℚ) : Except PredictErr (String × ℚ) :=
  match getKey m.config kVocab with
  | some (CfgVal.vStrList vocab) =>
      if vocab = [] then Except.error PredictErr.invalidVocab
      else if 0 < seq ∧ v = 0 then Except.error PredictErr.emptyClassAxis
      else if ∀ pos : Fin seq, predIdx rexp m x mean std pos < vocab.length then
        let pad := padFromCfg m.config
        let kept := popPads pad (predTokens rexp m x mean std vocab)
          (predConfs rexp m x mean std)
        Except.ok (String.join kept.1, if kept.2 = [] then 0 else listMin kept.2)
      else Except.error PredictErr.vocabIndex
  | _ => Except.error PredictErr.invalidVocab

/-! ## Concrete instances used by witnesses and counterexamples -/

/-- A tiny model whose stored vocabulary holds one empty-string entry:
legal as an artifact (the config is just JSON), and every tensor zero. -/
def cexModel : TrainedModel 1 1 1 1 :=
  ⟨[(kVocab, CfgVal.vStrList [""])], fun _ _ => 0, fun _ => 0, fun _ _ _ => 0,
    fun _ _ => 0⟩

/-- A one-pixel feature row of zeros. -/
def cexX : Matq 1 1 := fun _ _ => 0

/-- A tiny model whose stored vocabulary `["a"]` is shorter than its head
tensor's vocabulary dimension (`w2.shape[1] = 2`); the head bias prefers
class `1`, so the clamped argmax lands past the stored vocabulary and
Python's `vocab[idx]` raises `IndexError`. -/
def cexShortVocabModel : TrainedModel 1 1 1 2 :=
  ⟨[(kVocab, CfgVal.vStrList ["a"])], fun _ _ => 0, fun _ => 0, fun _ _ _ => 0,
    fun _ j => if (j : ℕ) = 1 then 1 else 0⟩

/-- A tiny well-formed model with the single-token vocabulary `["0"]`. -/
def wModel : TrainedModel 1 1 1 1 :=
  ⟨[(kVocab, CfgVal.vStrList ["0"])], fun _ _ => 0, fun _ => 0, fun _ _ _ => 0,
    fun _ _ => 0⟩

/-- A saved artifact whose config stores neither pixel statistic. -/
def wNpz : NpzModelFile 1 1 1 1 :=
  ⟨[(kVocab, CfgVal.vStrList ["0"])], fun _ _ => 0, fun _ => 0, fun _ _ _ => 0,
    fun _ _ => 0⟩

/-! ## Verification-side bundle for the trainer -/

/-- All inputs of one `_train_mlp` call, bundled so that the
best-checkpoint statements stay readable. -/
structure TrainRun (n nv f hid seq v : ℕ) : Type where
  rexp : ℚ → ℚ
  rlog : ℚ → ℚ
  cfg : TrainConfig
  vocab : List String
  draws : RngDraws n f hid seq v
  durations : ℕ → ℚ
  xtr : Matq n f
  ytr : Fin n → Fin seq → Fin v
  xval : Matq nv f
  yval : Fin nv → Fin seq → Fin v

/-- The trainer's loop state after `e` epochs of a run. -/
def TrainRun.stateAt {n nv f hid seq v : ℕ} (R : TrainRun n nv f hid seq v)
    (e : ℕ) : EpochState f hid seq v :=
  (epochsLoop R.rexp R.rlog R.cfg.learning_rate R.cfg.batch_size
    R.cfg.min_epoch_seconds R.draws R.durations R.xtr R.ytr R.xval R.yval e).1

/-- The validation loss of a parameter set, as `_train_mlp` computes it
after the epoch's minibatch loop. -/
def evalValLoss (rexp rlog : ℚ → ℚ) {nv f hid seq v : ℕ} (xval : Matq nv f)
    (yval : Fin nv → Fin seq → Fin v) (p : Params f hid seq v) : ℚ :=
  (_eval_model rexp rlog xval yval p.w1 p.b1 p.w2 p.b2).1

/-- The validation loss measured at the end of epoch `e` (counting from
`0`) of a run. -/
def TrainRun.valLossAt {n nv f hid seq v : ℕ} (R : TrainRun n nv f hid seq v)
    (e : ℕ) : ℚ :=
  evalValLoss R.rexp R.rlog R.xval R.yval (R.stateAt (e + 1)).p

/-- The full `_train_mlp` call of a run. -/
def TrainRun.run {n nv f hid seq v : ℕ} (R : TrainRun n nv f hid seq v) :
    Option ((TrainedModel f hid seq v × ℚ) × List ℚ) :=
  _train_mlp R.rexp R.rlog R.cfg R.vocab R.draws R.durations R.xtr R.ytr
    R.xval R.yval

/-- A minimal zero-epoch training run on one sample, used to witness the
checkpoint-tracking statement. -/
def wRun : TrainRun 1 1 1 1 1 1 :=
  ⟨fun q => q, fun q => q, ⟨0, 4, 1, 0, 96, 24, 17⟩, ["0"],
    ⟨fun _ _ => 0, fun _ _ _ => 0, fun _ _ => 0⟩, fun _ => 0,
    fun _ _ => 0, fun _ _ => 0, fun _ _ => 0, fun _ _ => 0⟩

/-! ## Lemmas on the config dictionary -/

/-- Looking up the key just assigned returns the assigned value. -/
theorem getKey_setKey_self (c : Config) (k : String) (v : CfgVal) :
    getKey (setKey c k v) k = some v := by
  induction c with
  | nil => simp [setKey, getKey]
  | cons kv rest ih =>
      by_cases h : kv.1 = k
      · simp [setKey, getKey, h]
      · simp [setKey, getKey, h, ih]

/-- Assigning one key leaves the lookup of every other key unchanged. -/
theorem getKey_setKey_ne (c : Config) (k k' : String) (v : CfgVal)
    (h : k ≠ k') : getKey (setKey c k v) k' = getKey c k' := by
  induction c with
  | nil => simp [setKey, getKey, h]
  | cons kv rest ih =>
      by_cases hk : kv.1 = k
      · subst hk
        simp [setKey, getKey, h, ih]
      · simp [setKey, getKey, hk, ih]
/-! ## Claim C1 (serializer round-trip), C8 (empty evaluation), C9 (load defaults) -/

/-- Lookup after the two stat assignments of `_save_model_npz` is
unchanged for every other key. -/
theorem getKey_save_other (c : Config) (mean std : ℚ) (key : String)
    (hm : key ≠ kPixelMean) (hs : key ≠ kPixelStd) :
    getKey (setKey (setKey c kPixelMean (CfgVal.vRat mean)) kPixelStd
      (CfgVal.vRat std)) key = getKey c key := by
  rw [getKey_setKey_ne _ _ _ _ (Ne.symm hs), getKey_setKey_ne _ _ _ _ (Ne.symm hm)]

/-- C1: loading the artifact written by `_save_model_npz` succeeds and
yields the original four parameter tensors unchanged (bit-identical, the
tensors being float32 on both sides), a config with the same vocabulary
order, pad token and dimensions as the original, and the saved mean and
std as `pixel_mean` and `pixel_std`. -/
theorem save_load_roundtrip {f hid seq v : ℕ} (m : TrainedModel f hid seq v)
    (mean std : ℚ) :
    ∃ m' : TrainedModel f hid seq v,
      _load_model_npz (_save_model_npz m mean std) = some (m', mean, std) ∧
      m'.w1 = m.w1 ∧ m'.b1 = m.b1 ∧ m'.w2 = m.w2 ∧ m'.b2 = m.b2 ∧
      getKey m'.config kVocab = getKey m.config kVocab ∧
      getKey m'.config kPadToken = getKey m.config kPadToken ∧
      getKey m'.config kImageWidth = getKey m.config kImageWidth ∧
      getKey m'.config kImageHeight = getKey m.config kImageHeight ∧
      getKey m'.config kHiddenSize = getKey m.config kHiddenSize ∧
      getKey m'.config kMaxLabelLen = getKey m.config kMaxLabelLen ∧
      getKey m'.config kPixelMean = some (CfgVal.vRat mean) ∧
      getKey m'.config kPixelStd = some (CfgVal.vRat std) := by
  have hmean : getKey (setKey (setKey m.config kPixelMean (CfgVal.vRat mean))
      kPixelStd (CfgVal.vRat std)) kPixelMean = some (CfgVal.vRat mean) := by
    rw [getKey_setKey_ne _ _ _ _ (by decide), getKey_setKey_self]
  have hstd : getKey (setKey (setKey m.config kPixelMean (CfgVal.vRat mean))
      kPixelStd (CfgVal.vRat std)) kPixelStd = some (CfgVal.vRat std) := by
    rw [getKey_setKey_self]
  refine ⟨⟨setKey (setKey m.config kPixelMean (CfgVal.vRat mean)) kPixelStd
    (CfgVal.vRat std), m.w1, m.b1, m.w2, m.b2⟩, ?_, rfl, rfl, rfl, rfl,
    getKey_save_other _ _ _ _ (by decide) (by decide),
    getKey_save_other _ _ _ _ (by decide) (by decide),
    getKey_save_other _ _ _ _ (by decide) (by decide),
    getKey_save_other _ _ _ _ (by decide) (by decide),
    getKey_save_other _ _ _ _ (by decide) (by decide),
    getKey_save_other _ _ _ _ (by decide) (by decide), hmean, hstd⟩
  simp [_load_model_npz, _save_model_npz, hmean, hstd, cfgNum]

/-- C8: evaluating the model on an empty feature tensor or an empty label
tensor returns exactly `(0.0, 0.0, 0.0)`, for every parameter set. -/
theorem eval_model_empty (rexp rlog : ℚ → ℚ) {n f seq v hid : ℕ}
    (x : Matq n f) (y : Fin n → Fin seq → Fin v) (w1 : Matq hid f)
    (b1 : Vecq hid) (w2 : Fin seq → Matq v hid) (b2 : Fin seq → Vecq v)
    (h : n * f = 0 ∨ n * seq = 0) :
    _eval_model rexp rlog x y w1 b1 w2 b2 = (0, 0, 0) := by
  unfold _eval_model
  rw [if_pos h]

/-- C8 witness: the empty-tensor evaluation at a concrete parameter set. -/
theorem eval_model_empty_witness :
    (0 * 1 = 0 ∨ 0 * 1 = 0) ∧
    _eval_model (fun q => q) (fun q => q)
      (fun (_ : Fin 0) (_ : Fin 1) => (0 : ℚ))
      (fun (_ : Fin 0) (_ : Fin 1) => (0 : Fin 1))
      (fun (_ : Fin 1) (_ : Fin 1) => (0 : ℚ))
      (fun (_ : Fin 1) => (0 : ℚ))
      (fun (_ : Fin 1) (_ : Fin 1) (_ : Fin 1) => (0 : ℚ))
      (fun (_ : Fin 1) (_ : Fin 1) => (0 : ℚ)) = (0, 0, 0) :=
  ⟨Or.inl rfl,
    eval_model_empty (fun q => q) (fun q => q) _ _ _ _ _ _ (Or.inl rfl)⟩

/-- C9: an artifact whose config lacks `pixel_mean` or `pixel_std` loads
without error, substituting `0.0` for a missing mean and `1.0` for a
missing std (the other statistic being either missing too or stored as a
number). -/
theorem load_missing_stats_defaults {f hid seq v : ℕ}
    (d : NpzModelFile f hid seq v) :
    (getKey d.config kPixelMean = none → getKey d.config kPixelStd = none →
      _load_model_npz d = some (⟨d.config, d.w1, d.b1, d.w2, d.b2⟩, 0, 1)) ∧
    (∀ s q, getKey d.config kPixelMean = none →
      getKey d.config kPixelStd = some s → cfgNum s = some q →
      _load_model_npz d = some (⟨d.config, d.w1, d.b1, d.w2, d.b2⟩, 0, q)) ∧
    (∀ s q, getKey d.config kPixelStd = none →
      getKey d.config kPixelMean = some s → cfgNum s = some q →
      _load_model_npz d = some (⟨d.config, d.w1, d.b1, d.w2, d.b2⟩, q, 1)) := by
  refine ⟨fun h1 h2 => ?_, fun s q h1 h2 h3 => ?_, fun s q h1 h2 h3 => ?_⟩
  · simp [_load_model_npz, h1, h2]
  · simp [_load_model_npz, h1, h2, h3]
  · simp [_load_model_npz, h1, h2, h3]

/-- C9 witness: loading the concrete artifact `wNpz`, which stores
neither pixel statistic, succeeds with mean `0` and std `1`. -/
theorem load_missing_stats_defaults_witness :
    getKey wNpz.config kPixelMean = none ∧ getKey wNpz.config kPixelStd = none ∧
    _load_model_npz wNpz =
      some (⟨wNpz.config, wNpz.w1, wNpz.b1, wNpz.w2, wNpz.b2⟩, 0, 1) :=
  ⟨rfl, rfl, (load_missing_stats_defaults wNpz).1 rfl rfl⟩

/-! ## Claim C2: codec round-trip -/

/-- A successful last-occurrence lookup returns an in-range index whose
entry is the token looked up. -/
theorem lastIdxOf_getD {vocab : List String} {t : String} {i : ℕ}
    (h : lastIdxOf vocab t = some i) : vocab.getD i "" = t ∧ i < vocab.length := by
  induction vocab generalizing i with
  | nil => simp [lastIdxOf] at h
  | cons v vs ih =>
      rw [lastIdxOf] at h
      cases hvs : lastIdxOf vs t with
      | some j =>
          rw [hvs] at h
          obtain rfl : j + 1 = i := by simpa using h
          have := ih hvs
          simpa using this
      | none =>
          rw [hvs] at h
          by_cases hv : v = t
          · simp [hv] at h
            obtain rfl : 0 = i := h
            simpa using hv
          · simp [hv] at h

/-- A token present in the vocabulary has a last occurrence. -/
theorem lastIdxOf_isSome_of_mem {vocab : List String} {t : String}
    (h : t ∈ vocab) : ∃ i, lastIdxOf vocab t = some i := by
  induction vocab with
  | nil => simp at h
  | cons v vs ih =>
      rw [lastIdxOf]
      cases hvs : lastIdxOf vs t with
      | some j => exact ⟨j + 1, rfl⟩
      | none =>
          rcases List.mem_cons.mp h with rfl | hm
          · simp
          · obtain ⟨j, hj⟩ := ih hm
            rw [hj] at hvs
            exact absurd hvs (by simp)

/-- Stripping from the reversed list eats a leading run of the pad. -/
theorem stripRev_replicate (pad : String) (k : ℕ) (l : List String) :
    stripRev pad (List.replicate k pad ++ l) = stripRev pad l := by
  induction k with
  | zero => simp
  | succ k ih => simpa [List.replicate_succ, stripRev] using ih

/-- Stripping stops at a non-pad head. -/
theorem stripRev_cons_of_ne (pad t : String) (l : List String) (h : t ≠ pad) :
    stripRev pad (t :: l) = t :: l := by
  simp [stripRev, h]

/-- Joining singleton tokens recovers the character list. -/
theorem data_join_singleton (l : List Char) :
    (String.join (l.map String.singleton)).data = l := by
  rw [String.data_join]
  induction l with
  | nil => simp
  | cons c cs ih => simpa [String.singleton] using ih

/-- A one-character token is never the five-character `PAD_TOKEN`. -/
theorem singleton_ne_pad (ch : Char) : String.singleton ch ≠ PAD_TOKEN := by
  intro h
  have := congrArg String.length h
  simp [String.length, String.singleton, PAD_TOKEN] at this

/-- C2: for a label of length at most `max_len` all of whose characters
occur in the vocabulary (which contains the padding token, as every
vocabulary built for training does), decoding the encoding — mapping the
indices back to vocabulary tokens and stripping only the trailing run of
the padding token — reproduces the label exactly. -/
theorem encode_decode_roundtrip (vocab : List String) (label : String)
    (max_len : ℕ) (hpad : PAD_TOKEN ∈ vocab) (hlen : label.length ≤ max_len)
    (hchars : ∀ ch ∈ label.toList, String.singleton ch ∈ vocab) :
    ∃ enc, _encode_label vocab max_len label = some enc ∧
      decodeIndices vocab PAD_TOKEN enc = label := by
  obtain ⟨pi, hpi⟩ := lastIdxOf_isSome_of_mem hpad
  obtain ⟨hpigetD, hpilt⟩ := lastIdxOf_getD hpi
  have hLlen : label.toList.length = label.length := rfl
  have htake : label.toList.take max_len = label.toList :=
    List.take_of_length_le (by rw [hLlen]; exact hlen)
  have hmin : min max_len label.toList.length = label.toList.length :=
    Nat.min_eq_right (by rw [hLlen]; exact hlen)
  have henc : _encode_label vocab max_len label =
      some (((label.toList.take max_len).map fun ch =>
          (lastIdxOf vocab (String.singleton ch)).getD pi)
        ++ List.replicate (max_len - min max_len label.toList.length) pi) := by
    rw [_encode_label, hpi]
    rfl
  refine ⟨_, henc, ?_⟩
  rw [decodeIndices]
  set k := max_len - min max_len label.toList.length with hk
  have hmap : ((label.toList.take max_len).map fun ch =>
        (lastIdxOf vocab (String.singleton ch)).getD pi).map
          (fun i => vocab.getD i "") = label.toList.map String.singleton := by
    rw [htake, List.map_map]
    refine List.map_congr_left fun ch hch => ?_
    obtain ⟨j, hj⟩ := lastIdxOf_isSome_of_mem (hchars ch hch)
    simp only [Function.comp_apply, hj, Option.getD_some]
    exact (lastIdxOf_getD hj).1
  rw [List.map_append, hmap, List.map_replicate, hpigetD, stripTrailingPad,
    List.reverse_append, List.reverse_replicate, stripRev_replicate]
  cases hA : (label.toList.map String.singleton).reverse with
  | nil =>
      have hnil : label.toList = [] := by
        have := congrArg List.reverse hA
        simpa using this
      have hlabel : label = "" :=
        String.toList_inj.mp (by rw [hnil, String.toList_empty])
      rw [hlabel]
      rfl
  | cons a t =>
      have ha : a ∈ label.toList.map String.singleton := by
        rw [← List.mem_reverse, hA]
        exact List.mem_cons_self a t
      obtain ⟨ch, hch, rfl⟩ := List.mem_map.mp ha
      rw [stripRev_cons_of_ne _ _ _ (singleton_ne_pad ch), ← hA,
        List.reverse_reverse]
      rw [← String.toList_inj]
      exact data_join_singleton label.toList

/-- C2 witness: the spec's own scenario, vocabulary `["0","1","<pad>"]`,
label `"01"`, `max_len = 4`. -/
theorem encode_decode_roundtrip_witness :
    PAD_TOKEN ∈ ["0", "1", "<pad>"] ∧ ("01" : String).length ≤ 4 ∧
    ∃ enc, _encode_label ["0", "1", "<pad>"] 4 "01" = some enc ∧
      decodeIndices ["0", "1", "<pad>"] PAD_TOKEN enc = "01" :=
  ⟨by decide, by decide,
    encode_decode_roundtrip ["0", "1", "<pad>"] "01" 4 (by decide) (by decide)
      (by decide)⟩

/-! ## Claim C3: vocabulary construction -/

/-- `String.singleton` is injective. -/
theorem singleton_injective : Function.Injective String.singleton := by
  intro a b h
  have := congrArg String.data h
  simpa [String.singleton] using this

/-- The pad token is never among the one-character entries, so
`_build_vocab` always appends it. -/
theorem build_vocab_eq (labels : List String) :
    _build_vocab labels =
      (((labels.flatMap String.toList).dedup.insertionSort (· ≤ ·)).map
        String.singleton) ++ [PAD_TOKEN] := by
  have hnp : PAD_TOKEN ∉
      (((labels.flatMap String.toList).dedup.insertionSort (· ≤ ·)).map
        String.singleton) := by
    intro hmem
    obtain ⟨ch, _, h⟩ := List.mem_map.mp hmem
    exact singleton_ne_pad ch h
  simp [_build_vocab, hnp]

/-- A singleton string lists exactly its character. -/
theorem toList_singleton (c : Char) : (String.singleton c).toList = [c] := by
  simp [String.singleton, String.toList]

/-- Singleton strings compare like their characters. -/
theorem singleton_le_singleton {a b : Char} (h : a ≤ b) :
    String.singleton a ≤ String.singleton b := by
  rcases lt_or_eq_of_le h with hlt | rfl
  · refine le_of_lt ?_
    rw [String.lt_iff_toList_lt, toList_singleton, toList_singleton]
    exact (List.Lex.singleton_iff a b).mpr hlt
  · exact le_refl _

/-- C3 counterexample: on `["a"]` the built vocabulary is
`["a", "<pad>"]`, which is not sorted ascending, because the padding
token is appended after characters that compare above it (`"<"` sorts
before `"a"`). -/
theorem build_vocab_sorted_counterexample :
    _build_vocab ["a"] = ["a", PAD_TOKEN] ∧
    ¬ List.Sorted (· ≤ ·) (_build_vocab ["a"]) := by
  have heq : _build_vocab ["a"] = ["a", PAD_TOKEN] := by decide
  refine ⟨heq, ?_⟩
  intro hs
  rw [heq] at hs
  have hle : ("a" : String) ≤ PAD_TOKEN :=
    (List.sorted_cons.mp hs).1 _ (by simp)
  have hlt : PAD_TOKEN < "a" := by
    rw [String.lt_iff_toList_lt]
    decide
  exact absurd hle (not_le.mpr hlt)

/-- C3 (amended): the built vocabulary holds each character of the labels
exactly once and the padding token exactly once (even if a label spells
out the padding token, its characters are single characters, never the
five-character token itself); all entries before the final appended
padding token are sorted ascending, and the padding token is the last
entry.  The full list with the appended pad is *not* sorted in general
(see the counterexample). -/
theorem build_vocab_amended (labels : List String) :
    (∀ ch ∈ labels.flatMap String.toList,
      (_build_vocab labels).count (String.singleton ch) = 1) ∧
    (_build_vocab labels).count PAD_TOKEN = 1 ∧
    List.Sorted (· ≤ ·) ((_build_vocab labels).dropLast) ∧
    (_build_vocab labels).getLast? = some PAD_TOKEN := by
  set chars := ((labels.flatMap String.toList).dedup.insertionSort (· ≤ ·)) with hchars
  have hnodup : chars.Nodup :=
    (List.perm_insertionSort (· ≤ ·) _).symm.nodup (List.nodup_dedup _)
  have hmapnodup : (chars.map String.singleton).Nodup :=
    hnodup.map singleton_injective
  refine ⟨fun ch hch => ?_, ?_, ?_, ?_⟩
  · rw [build_vocab_eq, List.count_append]
    have hmem : String.singleton ch ∈ chars.map String.singleton := by
      refine List.mem_map_of_mem _ ?_
      rw [hchars, List.mem_insertionSort, List.mem_dedup]
      exact hch
    have h1 : (chars.map String.singleton).count (String.singleton ch) = 1 :=
      List.count_eq_one_of_mem hmapnodup hmem
    have h2 : List.count (String.singleton ch) [PAD_TOKEN] = 0 := by
      simp [List.count_singleton, singleton_ne_pad ch]
    rw [h1, h2]
  · rw [build_vocab_eq, List.count_append]
    have h1 : (chars.map String.singleton).count PAD_TOKEN = 0 := by
      refine List.count_eq_zero_of_not_mem ?_
      intro hmem
      obtain ⟨ch, _, h⟩ := List.mem_map.mp hmem
      exact singleton_ne_pad ch h
    rw [h1]
    simp
  · rw [build_vocab_eq, List.dropLast_concat]
    have hsorted : List.Sorted (· ≤ ·) chars :=
      List.sorted_insertionSort (· ≤ ·) _
    exact List.Pairwise.map String.singleton
      (fun a b h => singleton_le_singleton h) hsorted
  · rw [build_vocab_eq]
    exact List.getLast?_concat _

/-- C3 witness: on labels `["ab"]`, the character `'a'` appears exactly
once in the built vocabulary. -/
theorem build_vocab_amended_witness :
    ('a' ∈ ["ab"].flatMap String.toList) ∧
    (_build_vocab ["ab"]).count (String.singleton 'a') = 1 :=
  ⟨by decide, (build_vocab_amended ["ab"]).1 'a' (by decide)⟩

/-! ## Claim C4: the training-step gradients -/

attribute [ext] StepAcc Params

/-- Unrolling the position loop: each position's `dW2`/`db2` slot is
assigned its own gradient, and `dh` accumulates the sum over the
positions seen. -/
theorem accumGrads_eq {b hid seq v : ℕ} (F : Fin seq → Matq v hid)
    (G1 : Fin seq → Vecq v) (G2 : Fin seq → Matq b hid)
    (l : List (Fin seq)) :
    ∀ a : StepAcc b hid seq v,
      accumGrads F G1 G2 l a =
        ⟨fun q => if q ∈ l then F q else a.dW2 q,
          fun q => if q ∈ l then G1 q else a.db2 q,
          fun i k => a.dh i k + (l.map fun pos => G2 pos i k).sum⟩ := by
  induction l with
  | nil =>
      intro a
      ext <;> simp [accumGrads]
  | cons pos rest ih =>
      intro a
      have hstep : accumGrads F G1 G2 (pos :: rest) a =
          accumGrads F G1 G2 rest
            ⟨Function.update a.dW2 pos (F pos), Function.update a.db2 pos (G1 pos),
              fun i k => a.dh i k + G2 pos i k⟩ := rfl
      rw [hstep, ih]
      refine StepAcc.ext ?_ ?_ ?_
      · funext q jj k
        by_cases hq : q ∈ rest
        · simp [hq, List.mem_cons]
        · by_cases hqp : q = pos
          · subst hqp
            simp [hq]
          · simp [hq, hqp, Function.update_noteq hqp]
      · funext q jj
        by_cases hq : q ∈ rest
        · simp [hq, List.mem_cons]
        · by_cases hqp : q = pos
          · subst hqp
            simp [hq]
          · simp [hq, hqp, Function.update_noteq hqp]
      · funext i k
        simp [add_assoc]

/-- C4: the training step of `_train_mlp` — the position loop assigning
`dW2[pos]`, `db2[pos]` and accumulating `dh`, then masking by the ReLU
derivative and descending — computes exactly the gradients the spec
states, position by position, and updates each parameter by
`param -= learning_rate * grad` with nothing else added. -/
theorem train_step_matches_spec (rexp : ℚ → ℚ) (lr : ℚ) {b f hid seq v : ℕ}
    (p : Params f hid seq v) (xb : Matq b f) (yb : Fin b → Fin seq → Fin v) :
    _train_step rexp lr p xb yb = trainStepSpec rexp lr p xb yb := by
  dsimp only [_train_step, trainStepSpec]
  rw [accumGrads_eq]
  refine Params.ext ?_ ?_ ?_ ?_ <;>
    funext <;>
    simp [List.mem_finRange, Fin.sum_univ_def]

/-! ## Claim C5: fixed-seed determinism -/

/-- The loop state after any number of epochs does not depend on the
epoch wall-clock durations: timing enters only the pacing sleeps. -/
theorem epochsLoop_state_time_indep (rexp rlog : ℚ → ℚ) (lr : ℚ) (bs : ℕ)
    (minSecs : ℚ) {n nv f hid seq v : ℕ} (draws : RngDraws n f hid seq v)
    (dur1 dur2 : ℕ → ℚ) (xtr : Matq n f) (ytr : Fin n → Fin seq → Fin v)
    (xval : Matq nv f) (yval : Fin nv → Fin seq → Fin v) (e : ℕ) :
    (epochsLoop rexp rlog lr bs minSecs draws dur1 xtr ytr xval yval e).1 =
    (epochsLoop rexp rlog lr bs minSecs draws dur2 xtr ytr xval yval e).1 := by
  induction e with
  | zero => rfl
  | succ e ih =>
      rw [epochsLoop, epochsLoop]
      dsimp only
      rw [ih]

/-- C5: two training runs with the same seed, config and input tensors
produce the same model (all four parameter tensors, the config, and the
reported best loss), whatever the wall-clock timing of the two runs: all
randomness is the seeded generator's draw stream `mkDraws cfg.seed`,
shared by both runs, and timing only feeds the pacing sleeps, which the
projection discards. -/
theorem train_fixed_seed_deterministic (rexp rlog : ℚ → ℚ) (cfg : TrainConfig)
    (vocab : List String) {n nv f hid seq v : ℕ}
    (mkDraws : ℤ → RngDraws n f hid seq v) (dur1 dur2 : ℕ → ℚ)
    (x_train : Matq n f) (y_train : Fin n → Fin seq → Fin v)
    (x_val : Matq nv f) (y_val : Fin nv → Fin seq → Fin v) :
    (_train_mlp rexp rlog cfg vocab (mkDraws cfg.seed) dur1 x_train y_train
        x_val y_val).map (fun r => r.1) =
    (_train_mlp rexp rlog cfg vocab (mkDraws cfg.seed) dur2 x_train y_train
        x_val y_val).map (fun r => r.1) := by
  rw [_train_mlp, _train_mlp]
  by_cases h : n * f = 0
  · rw [if_pos h, if_pos h]
  · rw [if_neg h, if_neg h]
    dsimp only
    rw [epochsLoop_state_time_indep rexp rlog cfg.learning_rate cfg.batch_size
      cfg.min_epoch_seconds (mkDraws cfg.seed) dur1 dur2 x_train y_train x_val
      y_val cfg.epochs]
    rfl

/-! ## Claim C7: best-checkpoint tracking -/

/-- One epoch advances the live parameters by the minibatch loop,
whether or not the checkpoint is replaced. -/
theorem _epoch_p (rexp rlog : ℚ → ℚ) (lr : ℚ) (bs : ℕ)
    {n nv f hid seq v : ℕ} (xtr : Matq n f) (ytr : Fin n → Fin seq → Fin v)
    (xval : Matq nv f) (yval : Fin nv → Fin seq → Fin v) (perm : Fin n → Fin n)
    (st : EpochState f hid seq v) :
    (_epoch rexp rlog lr bs xtr ytr xval yval perm st).p =
      runBatches rexp lr bs xtr ytr perm st.p := by
  rw [_epoch]
  split <;> rfl

/-- One epoch replaces the best loss exactly when the new validation loss
strictly improves on it. -/
theorem _epoch_bestLoss (rexp rlog : ℚ → ℚ) (lr : ℚ) (bs : ℕ)
    {n nv f hid seq v : ℕ} (xtr : Matq n f) (ytr : Fin n → Fin seq → Fin v)
    (xval : Matq nv f) (yval : Fin nv → Fin seq → Fin v) (perm : Fin n → Fin n)
    (st : EpochState f hid seq v) :
    (_epoch rexp rlog lr bs xtr ytr xval yval perm st).bestLoss =
      (if improved (evalValLoss rexp rlog xval yval
          (runBatches rexp lr bs xtr ytr perm st.p)) st.bestLoss
        then some (evalValLoss rexp rlog xval yval
          (runBatches rexp lr bs xtr ytr perm st.p))
        else st.bestLoss) := by
  rw [_epoch]
  simp only [evalValLoss]
  split <;> rfl

/-- One epoch replaces the snapshot exactly when the new validation loss
strictly improves, and then snapshots the new live parameters. -/
theorem _epoch_bestSnap (rexp rlog : ℚ → ℚ) (lr : ℚ) (bs : ℕ)
    {n nv f hid seq v : ℕ} (xtr : Matq n f) (ytr : Fin n → Fin seq → Fin v)
    (xval : Matq nv f) (yval : Fin nv → Fin seq → Fin v) (perm : Fin n → Fin n)
    (st : EpochState f hid seq v) :
    (_epoch rexp rlog lr bs xtr ytr xval yval perm st).bestSnap =
      (if improved (evalValLoss rexp rlog xval yval
          (runBatches rexp lr bs xtr ytr perm st.p)) st.bestLoss
        then some (runBatches rexp lr bs xtr ytr perm st.p)
        else st.bestSnap) := by
  rw [_epoch]
  simp only [evalValLoss]
  split <;> rfl

/-- The loop state one epoch further is the epoch step applied to the
current loop state. -/
theorem stateAt_succ {n nv f hid seq v : ℕ} (R : TrainRun n nv f hid seq v)
    (e : ℕ) :
    R.stateAt (e + 1) =
      _epoch R.rexp R.rlog R.cfg.learning_rate R.cfg.batch_size R.xtr R.ytr
        R.xval R.yval (R.draws.permAt e) (R.stateAt e) := rfl

/-- The live parameters after epoch `e + 1` come from the minibatch loop
applied at epoch `e`. -/
theorem stateAt_succ_p {n nv f hid seq v : ℕ} (R : TrainRun n nv f hid seq v)
    (e : ℕ) :
    (R.stateAt (e + 1)).p =
      runBatches R.rexp R.cfg.learning_rate R.cfg.batch_size R.xtr R.ytr
        (R.draws.permAt e) (R.stateAt e).p := by
  rw [stateAt_succ]
  exact _epoch_p _ _ _ _ _ _ _ _ _ _

/-- The epoch-`e` validation loss is the one `_epoch` measures at epoch
`e`. -/
theorem valLossAt_eq {n nv f hid seq v : ℕ} (R : TrainRun n nv f hid seq v)
    (e : ℕ) :
    R.valLossAt e =
      evalValLoss R.rexp R.rlog R.xval R.yval
        (runBatches R.rexp R.cfg.learning_rate R.cfg.batch_size R.xtr R.ytr
          (R.draws.permAt e) (R.stateAt e).p) := by
  rw [TrainRun.valLossAt, stateAt_succ_p]

/-- The checkpoint invariant: a still-infinite best loss happens only
before any epoch ran (and then without a snapshot), and a finite best
loss is the strict running minimum of the validation losses seen so far,
with the snapshot taken at an epoch attaining it. -/
theorem best_invariant {n nv f hid seq v : ℕ} (R : TrainRun n nv f hid seq v) :
    ∀ e : ℕ,
      ((R.stateAt e).bestLoss = none → (R.stateAt e).bestSnap = none ∧ e = 0) ∧
      (∀ bq, (R.stateAt e).bestLoss = some bq →
        (∃ j, j < e ∧ bq = R.valLossAt j ∧
          (R.stateAt e).bestSnap = some ((R.stateAt (j + 1)).p)) ∧
        (∀ j, j < e → bq ≤ R.valLossAt j)) := by
  intro e
  induction e with
  | zero =>
      constructor
      · intro _
        exact ⟨rfl, rfl⟩
      · intro bq h
        exact absurd h (by simp [TrainRun.stateAt, epochsLoop])
  | succ e ih =>
      have hBL : (R.stateAt (e + 1)).bestLoss =
          (if improved (R.valLossAt e) ((R.stateAt e).bestLoss)
            then some (R.valLossAt e) else (R.stateAt e).bestLoss) := by
        rw [stateAt_succ, _epoch_bestLoss, valLossAt_eq]
      have hBS : (R.stateAt (e + 1)).bestSnap =
          (if improved (R.valLossAt e) ((R.stateAt e).bestLoss)
            then some ((R.stateAt (e + 1)).p) else (R.stateAt e).bestSnap) := by
        rw [stateAt_succ, _epoch_bestSnap, valLossAt_eq, _epoch_p]
      by_cases hcond : improved (R.valLossAt e) ((R.stateAt e).bestLoss) = true
      · rw [if_pos hcond] at hBL hBS
        constructor
        · intro h
          rw [hBL] at h
          exact absurd h (by simp)
        · intro bq h
          rw [hBL] at h
          obtain rfl : R.valLossAt e = bq := by simpa using h
          refine ⟨⟨e, Nat.lt_succ_self e, rfl, hBS⟩, ?_⟩
          intro j hj
          rcases Nat.lt_succ_iff_lt_or_eq.mp hj with hj | rfl
          · cases hb : (R.stateAt e).bestLoss with
            | none =>
                obtain ⟨-, rfl⟩ := (ih.1) hb
                exact absurd hj (Nat.not_lt_zero j)
            | some bo =>
                rw [hb] at hcond
                have hlt : R.valLossAt e < bo := by
                  simpa [improved] using hcond
                exact le_of_lt (lt_of_lt_of_le hlt ((ih.2 bo hb).2 j hj))
          · exact le_refl _
      · have hcond' : improved (R.valLossAt e) ((R.stateAt e).bestLoss) = false :=
          Bool.eq_false_iff.mpr hcond
        rw [if_neg (by simp [hcond'])] at hBL hBS
        constructor
        · intro h
          rw [hBL] at h
          rw [h] at hcond'
          exact absurd hcond' (by simp [improved])
        · intro bq h
          rw [hBL] at h
          obtain ⟨⟨j, hj, hbqj, hsnap⟩, hmin⟩ := ih.2 bq h
          refine ⟨⟨j, Nat.lt_succ_of_lt hj, hbqj, by rw [hBS]; exact hsnap⟩, ?_⟩
          intro j' hj'
          rcases Nat.lt_succ_iff_lt_or_eq.mp hj' with hj' | rfl
          · exact hmin j' hj'
          · rw [h] at hcond'
            have : ¬ (R.valLossAt j' < bq) := by
              simpa [improved] using hcond'
            exact le_of_not_lt this

/-- C7: the best snapshot of all four tensors is replaced exactly when an
epoch's validation loss strictly improves on the best so far; the
returned model carries the snapshot taken at an epoch attaining the
minimum validation loss (with the reported best loss equal to that
minimum); and when no improving checkpoint was ever recorded (the best
loss stayed infinite) the final live parameters are returned with a
reported best loss of `0.0`. -/
theorem best_checkpoint_tracking {n nv f hid seq v : ℕ}
    (R : TrainRun n nv f hid seq v) :
    (∀ e : ℕ,
      (R.stateAt (e + 1)).bestLoss =
        (if improved (R.valLossAt e) ((R.stateAt e).bestLoss)
          then some (R.valLossAt e) else (R.stateAt e).bestLoss) ∧
      (R.stateAt (e + 1)).bestSnap =
        (if improved (R.valLossAt e) ((R.stateAt e).bestLoss)
          then some ((R.stateAt (e + 1)).p) else (R.stateAt e).bestSnap)) ∧
    (0 < n * f →
      ∃ model metric sleeps,
        R.run = some ((model, metric), sleeps) ∧
        (∀ bq, (R.stateAt R.cfg.epochs).bestLoss = some bq →
          metric = bq ∧
          (∃ j, j < R.cfg.epochs ∧ bq = R.valLossAt j ∧
            model.w1 = (R.stateAt (j + 1)).p.w1 ∧
            model.b1 = (R.stateAt (j + 1)).p.b1 ∧
            model.w2 = (R.stateAt (j + 1)).p.w2 ∧
            model.b2 = (R.stateAt (j + 1)).p.b2) ∧
          (∀ j, j < R.cfg.epochs → bq ≤ R.valLossAt j)) ∧
        ((R.stateAt R.cfg.epochs).bestLoss = none →
          metric = 0 ∧
          model.w1 = (R.stateAt R.cfg.epochs).p.w1 ∧
          model.b1 = (R.stateAt R.cfg.epochs).p.b1 ∧
          model.w2 = (R.stateAt R.cfg.epochs).p.w2 ∧
          model.b2 = (R.stateAt R.cfg.epochs).p.b2)) := by
  constructor
  · intro e
    constructor
    · rw [stateAt_succ, _epoch_bestLoss, valLossAt_eq]
    · rw [stateAt_succ, _epoch_bestSnap, valLossAt_eq, _epoch_p]
  · intro hpos
    have hne : ¬ (n * f = 0) := by omega
    have hst : (epochsLoop R.rexp R.rlog R.cfg.learning_rate R.cfg.batch_size
        R.cfg.min_epoch_seconds R.draws R.durations R.xtr R.ytr R.xval R.yval
        R.cfg.epochs).1 = R.stateAt R.cfg.epochs := rfl
    rw [TrainRun.run, _train_mlp, if_neg hne]
    dsimp only
    rw [hst]
    refine ⟨_, _, _, rfl, ?_, ?_⟩
    · intro bq hbq
      obtain ⟨⟨j, hj, hbqj, hsnap⟩, hmin⟩ :=
        (best_invariant R R.cfg.epochs).2 bq hbq
      refine ⟨by rw [hbq], ⟨j, hj, hbqj, ?_, ?_, ?_, ?_⟩, hmin⟩ <;>
        simp [hsnap]
    · intro hnone
      obtain ⟨hsnapnone, -⟩ := (best_invariant R R.cfg.epochs).1 hnone
      refine ⟨by rw [hnone], ?_, ?_, ?_, ?_⟩ <;> simp [hsnapnone]

/-- C7 witness: the concrete run `wRun` trains (its training tensor is
nonempty) and returns a model. -/
theorem best_checkpoint_tracking_witness :
    (0 < 1 * 1) ∧ ∃ model metric sleeps,
      TrainRun.run wRun = some ((model, metric), sleeps) := by
  refine ⟨by decide, ?_⟩
  obtain ⟨model, metric, sleeps, hrun, -, -⟩ :=
    (best_checkpoint_tracking wRun).2 (by decide)
  exact ⟨model, metric, sleeps, hrun⟩

/-! ## Claims C6 and C10: the predictor -/

/-- Stripping never lengthens the list. -/
theorem stripRev_length_le (pad : String) :
    ∀ l : List String, (stripRev pad l).length ≤ l.length := by
  intro l
  induction l with
  | nil => simp [stripRev]
  | cons t ts ih =>
      rw [stripRev]
      by_cases h : t = pad
      · rw [if_pos h]
        exact Nat.le_succ_of_le ih
      · rw [if_neg h]

/-- The lockstep while-loop pop equals stripping the tokens and dropping
the same number of confidences, for lists of equal length. -/
theorem popPadsRev_eq (pad : String) :
    ∀ (ts : List String) (cs : List ℚ), ts.length = cs.length →
      popPadsRev pad ts cs =
        (stripRev pad ts, cs.drop (ts.length - (stripRev pad ts).length)) := by
  intro ts
  induction ts with
  | nil =>
      intro cs h
      obtain rfl : cs = [] := by simpa using h.symm
      rfl
  | cons t ts' ih =>
      intro cs h
      cases cs with
      | nil => simp at h
      | cons c cs' =>
          by_cases hp : t = pad
          · have hlen : ts'.length = cs'.length := by simpa using h
            have hle := stripRev_length_le pad ts'
            rw [popPadsRev, if_pos hp, ih cs' hlen, stripRev, if_pos hp]
            congr 1
            have hidx : (t :: ts').length - (stripRev pad ts').length =
                (ts'.length - (stripRev pad ts').length) + 1 := by
              simp only [List.length_cons]
              omega
            rw [hidx, List.drop_succ_cons]
          · rw [popPadsRev, if_neg hp, stripRev, if_neg hp]
            simp
  
/-- `popPads` keeps the stripped token list and the matching prefix of
the confidence list. -/
theorem popPads_eq (pad : String) (toks : List String) (confs : List ℚ)
    (h : toks.length = confs.length) :
    popPads pad toks confs =
      (stripTrailingPad pad toks,
        confs.take (stripTrailingPad pad toks).length) := by
  rw [popPads, popPadsRev_eq pad toks.reverse confs.reverse (by simp [h])]
  dsimp only
  rw [stripTrailingPad]
  congr 1
  rw [List.drop_reverse, List.reverse_reverse]
  have h1 : (stripRev pad toks.reverse).length ≤ toks.length := by
    have := stripRev_length_le pad toks.reverse
    simpa using this
  congr 1
  rw [List.length_reverse, List.length_reverse]
  omega

/-- The fold behind Python's `min` stays below its seed and every
element, and lands on the seed or an element. -/
theorem foldl_min_spec (l : List ℚ) :
    ∀ a : ℚ, (l.foldl min a = a ∨ l.foldl min a ∈ l) ∧
      l.foldl min a ≤ a ∧ ∀ c ∈ l, l.foldl min a ≤ c := by
  induction l with
  | nil => intro a; simp
  | cons x xs ih =>
      intro a
      obtain ⟨hmem, hle, hall⟩ := ih (min a x)
      refine ⟨?_, ?_, ?_⟩
      · rw [List.foldl_cons]
        rcases hmem with hmem | hmem
        · rcases min_choice a x with hax | hax <;> rw [hmem, hax]
          · exact Or.inl rfl
          · exact Or.inr (List.mem_cons_self x xs)
        · exact Or.inr (List.mem_cons_of_mem x hmem)
      · rw [List.foldl_cons]
        exact le_trans hle (min_le_left a x)
      · intro c hc
        rw [List.foldl_cons]
        rcases List.mem_cons.mp hc with rfl | hc
        · exact le_trans hle (min_le_right a c)
        · exact hall c hc

/-- Python's `min` over a nonempty list is an element and a lower bound. -/
theorem listMin_spec (l : List ℚ) (h : l ≠ []) :
    listMin l ∈ l ∧ ∀ c ∈ l, listMin l ≤ c := by
  cases l with
  | nil => exact absurd rfl h
  | cons x xs =>
      obtain ⟨hmem, hle, hall⟩ := foldl_min_spec xs x
      refine ⟨?_, ?_⟩
      · rw [listMin]
        rcases hmem with hmem | hmem
        · rw [hmem]; exact List.mem_cons_self x xs
        · exact List.mem_cons_of_mem x hmem
      · intro c hc
        rw [listMin]
        rcases List.mem_cons.mp hc with rfl | hc
        · exact hle
        · exact hall c hc

/-- C6 (amended): the predictor fails with `model_invalid_vocab` exactly
when the stored vocabulary is missing (no list of strings under
`"vocab"`) or empty.  With a nonempty stored vocabulary (and a nonempty
class axis), when every clamped argmax index lies inside the stored
vocabulary it returns the join of the per-position argmax tokens with
only the trailing run of the pad token stripped, and a confidence that is
`0.0` when every position was stripped as padding and otherwise the
minimum of the per-position probabilities over the kept positions; when
some clamped index reaches past the stored vocabulary (the clamp bounds
it by the head tensor's vocabulary dimension, not by the list's length)
it raises an `IndexError` instead of returning.  (The claim's phrase
"0.0 when the decoded text is empty" fails when a kept vocabulary entry
is itself the empty string, and the claim's "returns" fails on
short-vocabulary artifacts: see the counterexample for both.) -/
theorem predict_text_postcondition (rexp : ℚ → ℚ) {f hid seq v nr : ℕ}
    (m : TrainedModel f hid seq v) (x : Matq (nr + 1) f) (mean std : ℚ) :
    (_predict_text rexp m x mean std = Except.error PredictErr.invalidVocab ↔
      ∀ vocab : List String, vocab ≠ [] →
        getKey m.config kVocab ≠ some (CfgVal.vStrList vocab)) ∧
    (∀ vocab : List String,
      getKey m.config kVocab = some (CfgVal.vStrList vocab) → vocab ≠ [] →
      ¬ (0 < seq ∧ v = 0) →
      ((∀ pos : Fin seq, predIdx rexp m x mean std pos < vocab.length) →
        ∃ conf,
          _predict_text rexp m x mean std =
            Except.ok (String.join (stripTrailingPad (padFromCfg m.config)
              (predTokens rexp m x mean std vocab)), conf) ∧
          (stripTrailingPad (padFromCfg m.config)
              (predTokens rexp m x mean std vocab) = [] → conf = 0) ∧
          (stripTrailingPad (padFromCfg m.config)
              (predTokens rexp m x mean std vocab) ≠ [] →
            conf ∈ (predConfs rexp m x mean std).take
              (stripTrailingPad (padFromCfg m.config)
                (predTokens rexp m x mean std vocab)).length ∧
            ∀ c ∈ (predConfs rexp m x mean std).take
              (stripTrailingPad (padFromCfg m.config)
                (predTokens rexp m x mean std vocab)).length,
              conf ≤ c)) ∧
      ((¬ ∀ pos : Fin seq, predIdx rexp m x mean std pos < vocab.length) →
        _predict_text rexp m x mean std =
          Except.error PredictErr.vocabIndex)) := by
  have hlen : ∀ vocab : List String,
      (predTokens rexp m x mean std vocab).length =
        (predConfs rexp m x mean std).length := by
    intro vocab
    rw [predTokens, predConfs, List.length_ofFn, List.length_ofFn]
  constructor
  · cases hg : getKey m.config kVocab with
    | none =>
        simp [_predict_text, hg]
    | some cv =>
        cases cv with
        | vInt z => simp [_predict_text, hg]
        | vRat q => simp [_predict_text, hg]
        | vStr sv => simp [_predict_text, hg]
        | vStrList l =>
            cases l with
            | nil => simp [_predict_text, hg]
            | cons a l' =>
                constructor
                · intro h
                  rw [_predict_text, hg] at h
                  dsimp only at h
                  rw [if_neg (by simp : ¬ (a :: l') = [])] at h
                  split_ifs at h <;> simp at h
                · intro hr
                  exact absurd rfl (hr (a :: l') (by simp))
  · intro vocab hg hne hax
    constructor
    · intro hbound
      have hpop : popPads (padFromCfg m.config)
          (predTokens rexp m x mean std vocab) (predConfs rexp m x mean std) =
          (stripTrailingPad (padFromCfg m.config)
              (predTokens rexp m x mean std vocab),
            (predConfs rexp m x mean std).take
              (stripTrailingPad (padFromCfg m.config)
                (predTokens rexp m x mean std vocab)).length) :=
        popPads_eq _ _ _ (hlen vocab)
      have hpred : _predict_text rexp m x mean std =
          Except.ok (String.join (stripTrailingPad (padFromCfg m.config)
              (predTokens rexp m x mean std vocab)),
            if (predConfs rexp m x mean std).take
                (stripTrailingPad (padFromCfg m.config)
                  (predTokens rexp m x mean std vocab)).length = [] then 0
            else listMin ((predConfs rexp m x mean std).take
              (stripTrailingPad (padFromCfg m.config)
                (predTokens rexp m x mean std vocab)).length)) := by
        rw [_predict_text, hg]
        dsimp only
        rw [if_neg hne, if_neg hax, if_pos hbound, hpop]
      have hkeptlen : (stripTrailingPad (padFromCfg m.config)
          (predTokens rexp m x mean std vocab)).length ≤
          (predConfs rexp m x mean std).length := by
        rw [← hlen vocab, stripTrailingPad, List.length_reverse]
        have := stripRev_length_le (padFromCfg m.config)
          (predTokens rexp m x mean std vocab).reverse
        rw [List.length_reverse] at this
        exact this
      have htklen : ((predConfs rexp m x mean std).take
          (stripTrailingPad (padFromCfg m.config)
            (predTokens rexp m x mean std vocab)).length).length =
          (stripTrailingPad (padFromCfg m.config)
            (predTokens rexp m x mean std vocab)).length := by
        rw [List.length_take]
        omega
      refine ⟨_, hpred, ?_, ?_⟩
      · intro hnil
        rw [if_pos (by rw [hnil]; simp)]
      · intro hnn
        have hne2 : (predConfs rexp m x mean std).take
            (stripTrailingPad (padFromCfg m.config)
              (predTokens rexp m x mean std vocab)).length ≠ [] := by
          intro hcon
          apply hnn
          rw [hcon] at htklen
          exact List.length_eq_zero.mp htklen.symm
        rw [if_neg hne2]
        exact listMin_spec _ hne2
    · intro hnb
      rw [_predict_text, hg]
      dsimp only
      rw [if_neg hne, if_neg hax, if_neg hnb]

/-- C6 counterexample, refuting two parts of the claim as stated.  First,
on a model whose stored vocabulary is the single empty-string entry, the
decoded text is empty yet the returned confidence is `1`, not `0.0` — the
kept (non-padding) position contributes its probability even though it
decodes to no character.  Second, on a loadable artifact whose stored
vocabulary `["a"]` is present and nonempty but shorter than the head
tensor's vocabulary dimension, the predictor raises an `IndexError`
rather than returning a `(text, confidence)` pair (and not
`InvalidVocabularyError`).  (The exponential is instantiated with
`fun q => q + 1` -like concrete monotone positive maps on the values that
occur — `fun _ => 1` for the one-class softmax, where the true
exponential also yields probability `1`, and `fun q => q + 2` on logits
`0` and `1`, where the true exponential also makes class `1` the
argmax.) -/
theorem predict_text_counterexample :
    (_predict_text (fun _ => (1 : ℚ)) cexModel cexX 0 1 = Except.ok ("", 1) ∧
      (1 : ℚ) ≠ 0) ∧
    (_predict_text (fun q => q + 2) cexShortVocabModel cexX 0 1 =
        Except.error PredictErr.vocabIndex ∧
      getKey cexShortVocabModel.config kVocab =
        some (CfgVal.vStrList ["a"]) ∧ ["a"] ≠ ([] : List String)) := by
  refine ⟨⟨?_, by norm_num⟩, ?_, rfl, by simp⟩
  · have hg : getKey cexModel.config kVocab = some (CfgVal.vStrList [""]) := rfl
    rw [_predict_text, hg]
    dsimp only
    rw [if_neg (by simp), if_neg (by simp),
      if_pos (by intro pos; simp [predIdx])]
    have htok : predTokens (fun _ => (1 : ℚ)) cexModel cexX 0 1 [""] = [""] := by
      rw [predTokens]
      simp [predIdx]
    have hconf : predConfs (fun _ => (1 : ℚ)) cexModel cexX 0 1 = [1] := by
      rw [predConfs]
      have hrow : ∀ pos : Fin 1,
          predProbsRow (fun _ => (1 : ℚ)) cexModel cexX 0 1 pos = [1] := by
        intro pos
        rw [predProbsRow]
        simp [_softmax, listMaxD]
      simp [hrow, predIdx]
    rw [htok, hconf]
    have hpadne : ("" : String) ≠ padFromCfg cexModel.config := by
      have hp : padFromCfg cexModel.config = PAD_TOKEN := rfl
      rw [hp]
      decide
    rw [popPads]
    simp only [List.reverse_singleton]
    rw [popPadsRev, if_neg hpadne]
    simp [listMin, String.join]
  · have hg : getKey cexShortVocabModel.config kVocab =
        some (CfgVal.vStrList ["a"]) := rfl
    have hrow : ∀ pos : Fin 1,
        predProbsRow (fun q => q + 2) cexShortVocabModel cexX 0 1 pos =
          [1 / 3, 2 / 3] := by
      intro pos
      rw [predProbsRow]
      simp [_softmax, listMaxD, _relu, cexShortVocabModel, cexX,
        Fin.sum_univ_two, List.ofFn_succ]
      norm_num
    have hidx : ∀ pos : Fin 1,
        predIdx (fun q => q + 2) cexShortVocabModel cexX 0 1 pos = 1 := by
      intro pos
      rw [predIdx, hrow pos]
      norm_num [argmaxIdx]
    rw [_predict_text, hg]
    dsimp only
    rw [if_neg (by simp), if_neg (by simp)]
    rw [if_neg ?hnb]
    case hnb =>
      intro hall
      have h0 := hall 0
      rw [hidx 0] at h0
      simp at h0

/-- C6 witness: on the concrete one-token model `wModel`, the predictor
succeeds and its output is the stripped-and-joined token list. -/
theorem predict_text_postcondition_witness :
    getKey wModel.config kVocab = some (CfgVal.vStrList ["0"]) ∧
    ∃ conf,
      _predict_text (fun _ => (1 : ℚ)) wModel cexX 0 1 =
        Except.ok (String.join (stripTrailingPad (padFromCfg wModel.config)
          (predTokens (fun _ => (1 : ℚ)) wModel cexX 0 1 ["0"])), conf) := by
  refine ⟨rfl, ?_⟩
  obtain ⟨conf, hpred, -, -⟩ :=
    ((predict_text_postcondition (fun _ => (1 : ℚ)) wModel cexX 0 1).2 ["0"] rfl
      (by simp) (by simp)).1 (by intro pos; simp [predIdx])
  exact ⟨conf, hpred⟩

/-- C10: the predictor reads only row `0` of its feature tensor — on any
tensor with one or more rows it returns exactly what it returns on the
tensor restricted to its first row. -/
theorem predict_text_first_row_only (rexp : ℚ → ℚ) {f hid seq v nr : ℕ}
    (m : TrainedModel f hid seq v) (x : Matq (nr + 1) f) (mean std : ℚ) :
    _predict_text rexp m x mean std =
      _predict_text rexp m (fun (_ : Fin 1) j => x 0 j) mean std := rfl
